import Mathlib

/-!
Shallow embedding of `src/cosine_plateau_scheduler/scheduler.py`
(class `CosinePlateauScheduler`).

Integer step quantities are modelled as `ℤ`, the percentage inputs of
`plateau_steps` as `ℚ` (Python floats holding percentages), and
learning-rate values as `ℝ` (Python float arithmetic modelled over the
reals).  Line numbers in the doc comments refer to `scheduler.py`.
-/

namespace CosinePlateau

/-- Python `int()` applied to a rational value: truncation toward zero. -/
def int_trunc (q : ℚ) : ℤ := if 0 ≤ q then ⌊q⌋ else ⌈q⌉

/-- Line 152: `max(0.0, min(1.0, progress))`. -/
noncomputable def clamp01 (x : ℝ) : ℝ := max 0 (min 1 x)

/-- Lines 153 and 238: `0.5 * (1 + math.cos(math.pi * progress))`. -/
noncomputable def cosine_factor (progress : ℝ) : ℝ :=
  1 / 2 * (1 + Real.cos (Real.pi * progress))

/-- The constructor arguments of `CosinePlateauScheduler` after the per-group
base learning rates have been resolved (lines 79-83): `base_lrs` holds one
base rate per parameter group.  The field `min_lr_factor` models the Python
attribute `min_lr_ratio`. -/
structure Config where
  total_steps : ℤ
  warmup_steps : ℤ
  base_lrs : List ℝ
  min_lr_factor : ℝ
  warmup_type : String
  plateau_steps : Option (List (ℚ × ℚ))

/-- Line 86: `self.training_steps = total_steps - warmup_steps`. -/
def Config.training_steps (c : Config) : ℤ := c.total_steps - c.warmup_steps

/-- Line 89: `self.min_lrs = [base_lr * min_lr_ratio for base_lr in self.base_lrs]`. -/
noncomputable def Config.min_lrs (c : Config) : List ℝ :=
  c.base_lrs.map (fun b => b * c.min_lr_factor)

/-- The plateau descriptor list; `None` behaves as the empty list for
iteration purposes. -/
def Config.descriptors (c : Config) : List (ℚ × ℚ) := c.plateau_steps.getD []

/-- A plateau region dictionary `{'start': ..., 'end': ...}` (lines 106-109).
The key `end` is renamed `stop` (`end` is a Lean keyword). -/
structure PlateauRegion where
  start : ℤ
  stop : ℤ
deriving DecidableEq

/-- Lines 103-109: `start_step = int(self.training_steps * pos_pct / 100)`,
`duration = int(self.training_steps * dur_pct / 100)`, region
`{'start': start_step, 'end': start_step + duration}`. -/
def mk_region (training_steps : ℤ) (d : ℚ × ℚ) : PlateauRegion :=
  ⟨int_trunc ((training_steps : ℚ) * d.1 / 100),
   int_trunc ((training_steps : ℚ) * d.1 / 100) + int_trunc ((training_steps : ℚ) * d.2 / 100)⟩

instance : DecidableRel (fun a b : PlateauRegion => a.start ≤ b.start) :=
  fun a b => Int.decLe a.start b.start

/-- Lines 97-112: parse every descriptor into a region, then
`self.plateau_regions.sort(key=lambda x: x['start'])`.  Python `list.sort`
is stable; `List.insertionSort` with `≤` on starts is the same stable sort. -/
def Config.plateau_regions (c : Config) : List PlateauRegion :=
  List.insertionSort (fun a b => a.start ≤ b.start)
    (c.descriptors.map (mk_region c.training_steps))

/-- Line 115: `sum(p['end'] - p['start'] for p in self.plateau_regions)`. -/
def Config.total_plateau_duration (c : Config) : ℤ :=
  (c.plateau_regions.map (fun r => r.stop - r.start)).sum

/-- Line 116: `self.effective_training_steps = self.training_steps - self.total_plateau_duration`. -/
def Config.effective_training_steps (c : Config) : ℤ :=
  c.training_steps - c.total_plateau_duration

/-- Lines 144-147: the region's start minus the summed durations of all
regions that precede it in the sorted order. -/
def Config.effective_position (c : Config) (i : ℕ) : ℤ :=
  (c.plateau_regions.getD i ⟨0, 0⟩).start -
    ((c.plateau_regions.take i).map (fun r => r.stop - r.start)).sum

/-- Lines 149-162: the held learning-rate vector `plateau_lrs[i]` of the
`i`-th sorted plateau region, one value per parameter group. -/
noncomputable def Config.plateau_lr (c : Config) (i : ℕ) : List ℝ :=
  if 0 < c.effective_training_steps then
    List.zipWith
      (fun b m => m + (b - m) *
        cosine_factor (clamp01 ((c.effective_position i : ℝ) / (c.effective_training_steps : ℝ))))
      c.base_lrs c.min_lrs
  else
    c.min_lrs

/-- A compiled lookup-table segment (lines 124-130, 172-198). -/
inductive Segment where
  | cosine (start stop : ℤ) (start_lrs end_lrs : List ℝ)
  | plateau (start stop : ℤ) (lrs : List ℝ)

def Segment.start : Segment → ℤ
  | .cosine a _ _ _ => a
  | .plateau a _ _ => a

def Segment.stop : Segment → ℤ
  | .cosine _ b _ _ => b
  | .plateau _ b _ => b

/-- Line 224: `segment['start'] <= adjusted_step < segment['end']`. -/
def Segment.containsB (seg : Segment) (a : ℤ) : Bool :=
  decide (seg.start ≤ a) && decide (a < seg.stop)

/-- Lines 169 and 196: `self.base_lrs if i == 0 else plateau_lrs[i - 1]`
(`plateau_lrs[-1] if plateau_lrs else self.base_lrs` at the final segment,
where `i` equals the number of regions). -/
noncomputable def Config.prev_lrs (c : Config) (i : ℕ) : List ℝ :=
  if i = 0 then c.base_lrs else c.plateau_lr (i - 1)

/-- Lines 164-198: the segment-building walk of `_precompute_segments`,
carried out over the sorted regions with the running region index `i` and
cursor `cur` (`current_pos`). -/
noncomputable def build_segments (c : Config) : List PlateauRegion → ℕ → ℤ → List Segment
  | [], i, cur =>
      if cur < c.training_steps then
        [Segment.cosine cur c.training_steps (c.prev_lrs i) c.min_lrs]
      else []
  | r :: rest, i, cur =>
      (if cur < r.start then
        [Segment.cosine cur r.start (c.prev_lrs i) (c.plateau_lr i)]
      else []) ++
      Segment.plateau r.start r.stop (c.plateau_lr i) :: build_segments c rest (i + 1) r.stop

/-- Lines 95-130: `if plateau_steps:` (Python truthiness: both `None` and the
empty list take the single-segment branch) builds the walk, otherwise a
single cosine segment over `[0, training_steps)`. -/
noncomputable def Config.segments (c : Config) : List Segment :=
  match c.plateau_steps with
  | none => [Segment.cosine 0 c.training_steps c.base_lrs c.min_lrs]
  | some [] => [Segment.cosine 0 c.training_steps c.base_lrs c.min_lrs]
  | some _ => build_segments c c.plateau_regions 0 0

/-- Lines 200-212: `_get_warmup_lr`. -/
noncomputable def Config.get_warmup_lr (c : Config) (step : ℤ) (b : ℝ) : ℝ :=
  if c.warmup_steps ≤ step then b
  else if c.warmup_steps = 0 then b
  else b * ((step : ℝ) / (c.warmup_steps : ℝ))

/-- Lines 225-242: evaluation of a found segment at the adjusted step for a
parameter-group index. -/
noncomputable def eval_segment (seg : Segment) (adjusted : ℤ) (idx : ℕ) : ℝ :=
  match seg with
  | .plateau _ _ lrs => lrs.getD idx 0
  | .cosine s e sl el =>
      if e - s ≤ 0 then sl.getD idx 0
      else
        el.getD idx 0 + (sl.getD idx 0 - el.getD idx 0) *
          cosine_factor (((adjusted - s : ℤ) : ℝ) / ((e - s : ℤ) : ℝ))

/-- Lines 214-245: `_get_cosine_lr`, scanning the segments in order for the
first one containing the adjusted step, falling back to `min_lrs`. -/
noncomputable def Config.get_cosine_lr (c : Config) (step : ℤ) (idx : ℕ) : ℝ :=
  match c.segments.find? (fun s => s.containsB (step - c.warmup_steps)) with
  | some seg => eval_segment seg (step - c.warmup_steps) idx
  | none => c.min_lrs.getD idx 0

/-- Lines 247-262: `get_lr` as a function of `self.last_epoch`. -/
noncomputable def Config.get_lr (c : Config) (last_epoch : ℤ) : List ℝ :=
  if last_epoch < 0 then c.base_lrs
  else if last_epoch < c.warmup_steps then
    c.base_lrs.map (c.get_warmup_lr last_epoch)
  else
    (List.range c.base_lrs.length).map (fun i => c.get_cosine_lr last_epoch i)

/-- The mutable driver state: the step counter `last_epoch` and the most
recently published per-group rates. -/
structure SchedulerState where
  last_epoch : ℤ
  last_lrs : List ℝ

/-- Modelled from the spec: the step operation of the Scheduler Driver
(spec section 4.3), whose code is the `LRScheduler.step` method that
`CosinePlateauScheduler` inherits from its base class (not under `src/`):
each call increments `last_epoch` by one, recomputes `get_lr`, and
publishes/caches the result. -/
noncomputable def Config.step_sched (c : Config) (st : SchedulerState) : SchedulerState :=
  ⟨st.last_epoch + 1, c.get_lr (st.last_epoch + 1)⟩

/-- Modelled from the spec: construction of the Scheduler Driver (spec
section 4.3), whose code is the `LRScheduler.__init__` body that line 132
delegates to (not under `src/`): it seeds `last_epoch` from the resume
offset (default `-1`) and immediately performs one advance-and-publish
(the base class's `_initial_step` calls `step()` once). -/
noncomputable def Config.init_sched (c : Config) (last_epoch : ℤ) : SchedulerState :=
  c.step_sched ⟨last_epoch, []⟩

/-- A plateau descriptor whose two percentages both lie in `[0, 100]`. -/
def ValidPct (d : ℚ × ℚ) : Prop := 0 ≤ d.1 ∧ d.1 ≤ 100 ∧ 0 ≤ d.2 ∧ d.2 ≤ 100

instance (d : ℚ × ℚ) : Decidable (ValidPct d) := by
  unfold ValidPct; infer_instance

/-- Lines 97-101: the descriptor validation loop, raising on the first
descriptor whose position (checked first) or duration percent leaves
`[0, 100]`. -/
def validate_pcts : List (ℚ × ℚ) → Except String Unit
  | [] => Except.ok ()
  | d :: rest =>
      if ¬ (0 ≤ d.1 ∧ d.1 ≤ 100) then
        Except.error "Plateau position must be between 0 and 100"
      else if ¬ (0 ≤ d.2 ∧ d.2 ≤ 100) then
        Except.error "Plateau duration must be between 0 and 100"
      else validate_pcts rest

/-- Python `str.lower()` applied character-wise (ASCII lowering as in
`warmup_type.lower()` of line 72). -/
def lower_str (s : String) : String := String.mk (s.data.map Char.toLower)

/-- Lines 72-101: everything the constructor can raise on, in source order:
first the `warmup_type.lower() not in ['linear']` check (line 76), then,
when `plateau_steps` is truthy, the percentage checks. -/
def validate_config (warmup_type : String) (plateau_steps : Option (List (ℚ × ℚ))) :
    Except String Unit :=
  if lower_str warmup_type ≠ "linear" then Except.error "warmup_type must be linear"
  else
    match plateau_steps with
    | none => Except.ok ()
    | some l => validate_pcts l

/-- A configuration accepted by the constructor, with the numeric interface
constraints of spec sections 3 and 6: positive `total_steps`, a warm-up not
longer than the run, positive per-group base rates, a floor factor in
`[0, 1]`, and descriptor percentages in `[0, 100]`. -/
structure Config.Valid (c : Config) : Prop where
  total_pos : 0 < c.total_steps
  warmup_nonneg : 0 ≤ c.warmup_steps
  warmup_le : c.warmup_steps ≤ c.total_steps
  base_pos : ∀ b ∈ c.base_lrs, (0 : ℝ) < b
  factor_nonneg : 0 ≤ c.min_lr_factor
  factor_le_one : c.min_lr_factor ≤ 1
  pcts : ∀ d ∈ c.descriptors, ValidPct d

/-- The spec's direct global-cosine formula for the no-plateau schedule:
`min_lr + (base_lr - min_lr) * 0.5 * (1 + cos(pi * (s - warmup_steps) / training_steps))`
per parameter group (stated from the spec's words for the refinement
comparison of the no-plateau reduction). -/
noncomputable def spec_single_cosine (c : Config) (s : ℤ) : List ℝ :=
  c.base_lrs.map (fun b =>
    b * c.min_lr_factor + (b - b * c.min_lr_factor) *
      (1 / 2 * (1 + Real.cos (Real.pi *
        (((s - c.warmup_steps : ℤ) : ℝ) / ((c.training_steps : ℤ) : ℝ))))))

/-- The `(start, stop)` bounds of each segment, in table order. -/
def seg_bounds (l : List Segment) : List (ℤ × ℤ) := l.map (fun s => (s.start, s.stop))

/-- `chain_covers cur bs t`: the half-open intervals `bs` are contiguous and
non-overlapping, each starting where the previous one ended, beginning at
`cur` and ending exactly at `t` (hence also ordered ascending by start and
covering `[cur, t)` exactly). -/
def chain_covers : ℤ → List (ℤ × ℤ) → ℤ → Prop
  | cur, [], t => cur = t
  | cur, p :: rest, t => p.1 = cur ∧ p.1 ≤ p.2 ∧ chain_covers p.2 rest t

/-- The concrete configuration of the spec's first concrete scenario:
`total_steps=1000, warmup_steps=100, min_lr_ratio=0.1, base_lr=0.1`, no
plateaus. -/
noncomputable def cfg5 : Config := ⟨1000, 100, [0.1], 0.1, "linear", none⟩

/-- A configuration with two overlapping plateau windows:
`total_steps=100, warmup_steps=0, base_lr=1, min_lr_ratio=0`,
`plateau_steps=[(20, 20), (35, 20)]`, giving regions `[20, 40)` and
`[35, 55)`. -/
noncomputable def cfg6 : Config := ⟨100, 0, [1], 0, "linear", some [(20, 20), (35, 20)]⟩

/-! ## Helper lemmas -/

lemma zipWith_self_map {α β : Type*} (g : α → α → β) (l : List α) :
    List.zipWith g l l = l.map (fun a => g a a) := by
  induction l with
  | nil => rfl
  | cons a l ih => simp [ih]

lemma zipWith_base_min (c : Config) (g : ℝ → ℝ → ℝ) :
    List.zipWith g c.base_lrs c.min_lrs
      = c.base_lrs.map (fun b => g b (b * c.min_lr_factor)) := by
  rw [Config.min_lrs, List.zipWith_map_right, zipWith_self_map]

lemma plateau_lr_eq (c : Config) (i : ℕ) :
    c.plateau_lr i =
      if 0 < c.effective_training_steps then
        c.base_lrs.map (fun b => b * c.min_lr_factor + (b - b * c.min_lr_factor) *
          cosine_factor (clamp01
            ((c.effective_position i : ℝ) / (c.effective_training_steps : ℝ))))
      else c.base_lrs.map (fun b => b * c.min_lr_factor) := by
  rw [Config.plateau_lr]
  split
  · rw [zipWith_base_min]
  · rw [Config.min_lrs]

lemma min_lrs_length (c : Config) : c.min_lrs.length = c.base_lrs.length := by
  simp [Config.min_lrs]

lemma plateau_lr_length (c : Config) (i : ℕ) :
    (c.plateau_lr i).length = c.base_lrs.length := by
  rw [plateau_lr_eq]; split <;> simp

lemma prev_lrs_length (c : Config) (i : ℕ) :
    (c.prev_lrs i).length = c.base_lrs.length := by
  rw [Config.prev_lrs]; split
  · rfl
  · exact plateau_lr_length c _

lemma cosine_factor_nonneg (p : ℝ) : 0 ≤ cosine_factor p := by
  unfold cosine_factor
  nlinarith [Real.neg_one_le_cos (Real.pi * p)]

lemma cosine_factor_le_one (p : ℝ) : cosine_factor p ≤ 1 := by
  unfold cosine_factor
  nlinarith [Real.cos_le_one (Real.pi * p)]

lemma clamp01_eq_one {x : ℝ} (h : 1 ≤ x) : clamp01 x = 1 := by
  unfold clamp01
  rw [min_eq_left h, max_eq_right (by norm_num : (0 : ℝ) ≤ 1)]

lemma cosine_factor_one : cosine_factor 1 = 0 := by
  unfold cosine_factor
  rw [mul_one, Real.cos_pi]; ring

lemma int_trunc_of_nonneg {q : ℚ} (h : 0 ≤ q) : int_trunc q = ⌊q⌋ := if_pos h

lemma int_trunc_nonneg {q : ℚ} (h : 0 ≤ q) : 0 ≤ int_trunc q := by
  rw [int_trunc_of_nonneg h]
  exact Int.floor_nonneg.mpr h

lemma int_trunc_le {q : ℚ} {n : ℤ} (h0 : 0 ≤ q) (h : q ≤ (n : ℚ)) : int_trunc q ≤ n := by
  rw [int_trunc_of_nonneg h0]
  calc ⌊q⌋ ≤ ⌊(n : ℚ)⌋ := Int.floor_le_floor h
  _ = n := Int.floor_intCast n

lemma training_steps_nonneg {c : Config} (hv : c.Valid) : 0 ≤ c.training_steps :=
  sub_nonneg.mpr hv.warmup_le

lemma mem_plateau_regions {c : Config} {r : PlateauRegion} (h : r ∈ c.plateau_regions) :
    ∃ d ∈ c.descriptors, r = mk_region c.training_steps d := by
  have hm : r ∈ c.descriptors.map (mk_region c.training_steps) :=
    (List.perm_insertionSort _ _).mem_iff.mp h
  rcases List.mem_map.mp hm with ⟨d, hd, hr⟩
  exact ⟨d, hd, hr.symm⟩

lemma region_facts {c : Config} (hv : c.Valid) {r : PlateauRegion}
    (h : r ∈ c.plateau_regions) :
    0 ≤ r.start ∧ r.start ≤ r.stop ∧ r.start ≤ c.training_steps := by
  rcases mem_plateau_regions h with ⟨d, hd, rfl⟩
  rcases hv.pcts d hd with ⟨hp0, hp1, hq0, _⟩
  have hT : (0 : ℚ) ≤ (c.training_steps : ℚ) := by
    exact_mod_cast training_steps_nonneg hv
  have hpos : 0 ≤ (c.training_steps : ℚ) * d.1 / 100 := by positivity
  have hdur : 0 ≤ (c.training_steps : ℚ) * d.2 / 100 := by positivity
  refine ⟨int_trunc_nonneg hpos, ?_, ?_⟩
  · simp only [mk_region]
    have := int_trunc_nonneg hdur
    omega
  · simp only [mk_region]
    refine int_trunc_le hpos ?_
    rw [div_le_iff₀ (by norm_num : (0 : ℚ) < 100)]
    nlinarith

lemma region_dur_nonneg {c : Config} (hv : c.Valid) {r : PlateauRegion}
    (h : r ∈ c.plateau_regions) : 0 ≤ r.stop - r.start := by
  have := (region_facts hv h).2.1
  omega

/-- If the `j`-th sorted plateau region runs past `training_steps`, its held
value collapses to `min_lrs` (the clamped progress reaches `1`). -/
lemma plateau_lr_of_stop_gt {c : Config} (hv : c.Valid) {j : ℕ}
    (hj : j < c.plateau_regions.length)
    (hover : c.training_steps < (c.plateau_regions.get ⟨j, hj⟩).stop) :
    c.plateau_lr j = c.min_lrs := by
  by_cases hT : 0 < c.effective_training_steps
  · set D : List ℤ := c.plateau_regions.map (fun r => r.stop - r.start) with hD
    have hjD : j < D.length := by simpa [hD] using hj
    have hsplit : (D.take j).sum + D[j] + (D.drop (j + 1)).sum = D.sum := by
      have h1 := List.sum_take_add_sum_drop D j
      have h2 : D.drop j = D[j] :: D.drop (j + 1) := List.drop_eq_getElem_cons hjD
      rw [h2, List.sum_cons] at h1
      omega
    have hrest : 0 ≤ (D.drop (j + 1)).sum := by
      refine List.sum_nonneg ?_
      intro x hx
      have hx' : x ∈ D := List.mem_of_mem_drop hx
      rcases List.mem_map.mp hx' with ⟨r, hr, rfl⟩
      exact region_dur_nonneg hv hr
    have hDj : D[j] = (c.plateau_regions.get ⟨j, hj⟩).stop
        - (c.plateau_regions.get ⟨j, hj⟩).start := by
      simp [hD]
    have heff : c.effective_training_steps ≤ c.effective_position j := by
      rw [Config.effective_position, List.getD_eq_getElem _ _ hj,
        Config.effective_training_steps, Config.total_plateau_duration]
      have htake : ((c.plateau_regions.take j).map (fun r => r.stop - r.start)).sum
          = (D.take j).sum := by
        rw [hD, List.map_take]
      rw [htake, ← hsplit]
      have hg : c.plateau_regions[j] = c.plateau_regions.get ⟨j, hj⟩ := rfl
      rw [hg]
      omega
    have hprog : (1 : ℝ) ≤ (c.effective_position j : ℝ) / (c.effective_training_steps : ℝ) := by
      rw [one_le_div (by exact_mod_cast hT)]
      exact_mod_cast heff
    rw [plateau_lr_eq, if_pos hT, clamp01_eq_one hprog, cosine_factor_one, Config.min_lrs]
    exact List.map_congr_left (fun b _ => by ring)
  · rw [Config.plateau_lr, if_neg hT]

/-- The learning-rate vectors that can appear as a compiled segment's
payload: the base rates, the floor rates, or some plateau's held rates. -/
def GoodLRs (c : Config) (l : List ℝ) : Prop :=
  l = c.base_lrs ∨ l = c.min_lrs ∨ ∃ j, l = c.plateau_lr j

lemma goodLRs_base (c : Config) : GoodLRs c c.base_lrs := Or.inl rfl

lemma goodLRs_min (c : Config) : GoodLRs c c.min_lrs := Or.inr (Or.inl rfl)

lemma goodLRs_plateau (c : Config) (j : ℕ) : GoodLRs c (c.plateau_lr j) :=
  Or.inr (Or.inr ⟨j, rfl⟩)

lemma goodLRs_prev (c : Config) (i : ℕ) : GoodLRs c (c.prev_lrs i) := by
  rw [Config.prev_lrs]; split
  · exact goodLRs_base c
  · exact goodLRs_plateau c _

lemma goodLRs_length {c : Config} {l : List ℝ} (h : GoodLRs c l) :
    l.length = c.base_lrs.length := by
  rcases h with rfl | rfl | ⟨j, rfl⟩
  · rfl
  · exact min_lrs_length c
  · exact plateau_lr_length c j

/-- Every payload vector of a compiled segment is pointwise at least the
per-group floor rate. -/
lemma goodLRs_ge_min {c : Config} (hv : c.Valid) {l : List ℝ} (h : GoodLRs c l)
    (i : ℕ) (hi : i < c.base_lrs.length) :
    c.min_lrs.getD i 0 ≤ l.getD i 0 := by
  have hb : (0 : ℝ) < c.base_lrs[i] := hv.base_pos _ (List.getElem_mem hi)
  have hmin : c.min_lrs.getD i 0 = c.base_lrs[i] * c.min_lr_factor := by
    rw [List.getD_eq_getElem _ _ (by rw [min_lrs_length]; exact hi)]
    simp [Config.min_lrs]
  have hbm : (0 : ℝ) ≤ c.base_lrs[i] - c.base_lrs[i] * c.min_lr_factor := by
    nlinarith [hv.factor_le_one]
  rcases h with rfl | rfl | ⟨j, rfl⟩
  · rw [hmin, List.getD_eq_getElem _ _ hi]
    nlinarith [hv.factor_le_one]
  · exact le_refl _
  · rw [plateau_lr_eq]
    split
    · rw [hmin, List.getD_eq_getElem _ _ (by simpa using hi), List.getElem_map]
      have h0 := cosine_factor_nonneg (clamp01
        ((c.effective_position j : ℝ) / (c.effective_training_steps : ℝ)))
      nlinarith [mul_nonneg hbm h0]
    · rw [hmin, List.getD_eq_getElem _ _ (by simpa using hi), List.getElem_map]

/-- Structure of everything `build_segments` emits while walking the suffix
`c.plateau_regions.drop i`: a cosine segment ending no later than
`training_steps` with payload vectors of the stored kinds, or the `j`-th
plateau segment with its held vector. -/
lemma build_segments_mem {c : Config} (hv : c.Valid) (rs : List PlateauRegion) :
    ∀ (i : ℕ) (cur : ℤ), rs = c.plateau_regions.drop i →
    ∀ seg ∈ build_segments c rs i cur,
      (∃ a b sl el, seg = Segment.cosine a b sl el ∧ b ≤ c.training_steps ∧
        GoodLRs c sl ∧ GoodLRs c el) ∨
      (∃ j, ∃ hj : j < c.plateau_regions.length,
        seg = Segment.plateau (c.plateau_regions.get ⟨j, hj⟩).start
          (c.plateau_regions.get ⟨j, hj⟩).stop (c.plateau_lr j)) := by
  induction rs with
  | nil =>
      intro i cur _ seg hmem
      rw [build_segments] at hmem
      by_cases h : cur < c.training_steps
      · rw [if_pos h] at hmem
        rcases List.mem_singleton.mp hmem with rfl
        exact Or.inl ⟨cur, c.training_steps, _, _, rfl, le_refl _,
          goodLRs_prev c i, goodLRs_min c⟩
      · rw [if_neg h] at hmem
        cases hmem
  | cons r rest ih =>
      intro i cur hdrop seg hmem
      have hlen : i < c.plateau_regions.length := by
        by_contra hcon
        push_neg at hcon
        rw [List.drop_eq_nil_of_le hcon] at hdrop
        cases hdrop
      have hcons : c.plateau_regions.drop i
          = c.plateau_regions[i] :: c.plateau_regions.drop (i + 1) :=
        List.drop_eq_getElem_cons hlen
      rw [hcons] at hdrop
      have hr : r = c.plateau_regions[i] := (List.cons_eq_cons.mp hdrop).1
      have hrest : rest = c.plateau_regions.drop (i + 1) := (List.cons_eq_cons.mp hdrop).2
      have hrmem : r ∈ c.plateau_regions := by
        rw [hr]; exact List.getElem_mem hlen
      rw [build_segments] at hmem
      rcases List.mem_append.mp hmem with h1 | h2
      · by_cases hc : cur < r.start
        · rw [if_pos hc] at h1
          rcases List.mem_singleton.mp h1 with rfl
          exact Or.inl ⟨cur, r.start, _, _, rfl, (region_facts hv hrmem).2.2,
            goodLRs_prev c i, goodLRs_plateau c i⟩
        · rw [if_neg hc] at h1
          cases h1
      · rcases List.mem_cons.mp h2 with rfl | h3
        · refine Or.inr ⟨i, hlen, ?_⟩
          have : c.plateau_regions.get ⟨i, hlen⟩ = c.plateau_regions[i] := rfl
          rw [this, ← hr]
        · exact ih (i + 1) r.stop hrest seg h3

/-- The `j`-th plateau region of the walked list contributes its plateau
segment (with held vector `plateau_lr (i + j)`) to the walk's output. -/
lemma plateau_mem_build (c : Config) (rs : List PlateauRegion) :
    ∀ (i : ℕ) (cur : ℤ) (j : ℕ) (hj : j < rs.length),
      Segment.plateau (rs.get ⟨j, hj⟩).start (rs.get ⟨j, hj⟩).stop (c.plateau_lr (i + j))
        ∈ build_segments c rs i cur := by
  induction rs with
  | nil => intro _ _ j hj; cases hj
  | cons r rest ih =>
      intro i cur j hj
      rw [build_segments]
      apply List.mem_append_right
      cases j with
      | zero => simp
      | succ j' =>
          apply List.mem_cons_of_mem
          have hj' : j' < rest.length := Nat.succ_lt_succ_iff.mp hj
          have := ih (i + 1) r.stop j' hj'
          have harith : i + 1 + j' = i + (j' + 1) := by omega
          rw [harith] at this
          simpa using this

/-- The plateau segment of the `j`-th sorted region is in the compiled table
whenever there is at least one descriptor. -/
lemma segments_plateau_mem {c : Config} (hne : c.descriptors ≠ []) (j : ℕ)
    (hj : j < c.plateau_regions.length) :
    Segment.plateau (c.plateau_regions.get ⟨j, hj⟩).start
      (c.plateau_regions.get ⟨j, hj⟩).stop (c.plateau_lr j) ∈ c.segments := by
  rw [Config.segments]
  rcases hc : c.plateau_steps with _ | l
  · exact absurd (by simp [Config.descriptors, hc]) hne
  · cases l with
    | nil => exact absurd (by simp [Config.descriptors, hc]) hne
    | cons d ds =>
        have := plateau_mem_build c c.plateau_regions 0 0 j hj
        simpa using this

/-- Everything in the compiled table is a cosine segment ending no later
than `training_steps` with stored payload kinds, or a plateau segment of
some sorted region with its held vector. -/
lemma segments_cases {c : Config} (hv : c.Valid) {seg : Segment} (h : seg ∈ c.segments) :
    (∃ a b sl el, seg = Segment.cosine a b sl el ∧ b ≤ c.training_steps ∧
      GoodLRs c sl ∧ GoodLRs c el) ∨
    (∃ j, ∃ hj : j < c.plateau_regions.length,
      seg = Segment.plateau (c.plateau_regions.get ⟨j, hj⟩).start
        (c.plateau_regions.get ⟨j, hj⟩).stop (c.plateau_lr j)) := by
  rw [Config.segments] at h
  rcases hc : c.plateau_steps with _ | l
  · rw [hc] at h
    rcases List.mem_singleton.mp h with rfl
    exact Or.inl ⟨0, c.training_steps, _, _, rfl, le_refl _, goodLRs_base c, goodLRs_min c⟩
  · cases l with
    | nil =>
        rw [hc] at h
        rcases List.mem_singleton.mp h with rfl
        exact Or.inl ⟨0, c.training_steps, _, _, rfl, le_refl _, goodLRs_base c, goodLRs_min c⟩
    | cons d ds =>
        rw [hc] at h
        exact build_segments_mem hv c.plateau_regions 0 0 (List.drop_zero _).symm seg h

lemma chain_covers_le : ∀ (bs : List (ℤ × ℤ)) (cur t : ℤ), chain_covers cur bs t → cur ≤ t := by
  intro bs
  induction bs with
  | nil => intro cur t h; exact le_of_eq h
  | cons q rest ih =>
      intro cur t h
      obtain ⟨h1, h2, h3⟩ := h
      have := ih q.2 t h3
      omega

lemma chain_covers_bounds : ∀ (bs : List (ℤ × ℤ)) (cur t : ℤ), chain_covers cur bs t →
    ∀ p ∈ bs, cur ≤ p.1 ∧ p.1 ≤ p.2 ∧ p.2 ≤ t := by
  intro bs
  induction bs with
  | nil => intro cur t _ p hp; cases hp
  | cons q rest ih =>
      intro cur t h p hp
      obtain ⟨h1, h2, h3⟩ := h
      rcases List.mem_cons.mp hp with rfl | hp'
      · exact ⟨le_of_eq h1.symm, h2, chain_covers_le rest p.2 t h3⟩
      · have := ih q.2 t h3 p hp'
        omega

/-- `chain_from cur bs`: the half-open intervals `bs` are ordered and
pairwise disjoint, each starting no earlier than the previous one's end
(and no earlier than `cur`).  Unlike `chain_covers` this does not require
the intervals to end exactly at a given endpoint, so it also holds for
tables whose last plateau segment overruns `training_steps`. -/
def chain_from : ℤ → List (ℤ × ℤ) → Prop
  | _, [] => True
  | cur, p :: rest => cur ≤ p.1 ∧ p.1 ≤ p.2 ∧ chain_from p.2 rest

lemma chain_from_bounds : ∀ (bs : List (ℤ × ℤ)) (cur : ℤ), chain_from cur bs →
    ∀ p ∈ bs, cur ≤ p.1 ∧ p.1 ≤ p.2 := by
  intro bs
  induction bs with
  | nil => intro cur _ p hp; cases hp
  | cons q rest ih =>
      intro cur h p hp
      obtain ⟨h1, h2, h3⟩ := h
      rcases List.mem_cons.mp hp with rfl | hp'
      · exact ⟨h1, h2⟩
      · have := ih q.2 h3 p hp'
        omega

/-- In an ordered, pairwise-disjoint segment table the scan of
`_get_cosine_lr` finds exactly the segment containing the adjusted step. -/
lemma find?_chain {l : List Segment} {cur a : ℤ} {seg : Segment}
    (hc : chain_from cur (seg_bounds l)) (hmem : seg ∈ l)
    (h1 : seg.start ≤ a) (h2 : a < seg.stop) :
    l.find? (fun s => s.containsB a) = some seg := by
  induction l generalizing cur with
  | nil => cases hmem
  | cons s0 rest ih =>
      have hc' : cur ≤ (s0.start, s0.stop).1 ∧ (s0.start, s0.stop).1 ≤ (s0.start, s0.stop).2 ∧
          chain_from (s0.start, s0.stop).2 (seg_bounds rest) := hc
      obtain ⟨hs1, hs2, hs3⟩ := hc'
      rcases List.mem_cons.mp hmem with rfl | hmem'
      · refine List.find?_cons_of_pos _ ?_
        simp only [Segment.containsB, Bool.and_eq_true, decide_eq_true_eq]
        exact ⟨h1, h2⟩
      · have hbp : (seg.start, seg.stop) ∈ seg_bounds rest := by
          exact List.mem_map.mpr ⟨seg, hmem', rfl⟩
        have hb := chain_from_bounds (seg_bounds rest) s0.stop hs3 _ hbp
        have hge : s0.stop ≤ seg.start := hb.1
        have hno : ¬ (fun s : Segment => s.containsB a) s0 = true := by
          simp only [Segment.containsB, Bool.and_eq_true, decide_eq_true_eq, not_and, not_lt]
          intro _
          omega
        rw [List.find?_cons_of_neg rest hno]
        exact ih hs3 hmem'

/-- Without any fit requirement, the walk produces an ordered,
pairwise-disjoint table whenever the sorted regions are non-overlapping
and start no earlier than the cursor. -/
lemma build_chain_from (c : Config) (rs : List PlateauRegion) :
    ∀ (i : ℕ) (cur : ℤ),
      (∀ r ∈ rs, r.start ≤ r.stop) →
      List.Chain' (fun a b : PlateauRegion => a.stop ≤ b.start) rs →
      (∀ r0 ∈ rs.head?, cur ≤ r0.start) →
      chain_from cur (seg_bounds (build_segments c rs i cur)) := by
  induction rs with
  | nil =>
      intro i cur _ _ _
      rw [build_segments]
      by_cases h : cur < c.training_steps
      · rw [if_pos h]
        exact ⟨le_refl cur, le_of_lt h, trivial⟩
      · rw [if_neg h]
        trivial
  | cons r rest ih =>
      intro i cur hbnd hchain hhead
      have hr := hbnd r (List.mem_cons_self r rest)
      have hcur_r : cur ≤ r.start := hhead r rfl
      have hch := List.chain'_cons'.mp hchain
      have htail := ih (i + 1) r.stop (fun x hx => hbnd x (List.mem_cons_of_mem r hx))
        hch.2 (fun r0 h0 => hch.1 r0 h0)
      rw [build_segments]
      by_cases hcr : cur < r.start
      · rw [if_pos hcr]
        exact ⟨le_refl cur, le_of_lt hcr, le_refl r.start, hr, htail⟩
      · rw [if_neg hcr]
        exact ⟨hcur_r, hr, htail⟩

/-- The segment walk produces a contiguous table when the sorted regions are
pairwise non-overlapping, fit inside `training_steps`, and start no earlier
than the cursor. -/
lemma build_chain_covers (c : Config) (rs : List PlateauRegion) :
    ∀ (i : ℕ) (cur : ℤ),
      (∀ r ∈ rs, r.start ≤ r.stop ∧ r.stop ≤ c.training_steps) →
      List.Chain' (fun a b : PlateauRegion => a.stop ≤ b.start) rs →
      (∀ r0 ∈ rs.head?, cur ≤ r0.start) →
      cur ≤ c.training_steps →
      chain_covers cur (seg_bounds (build_segments c rs i cur)) c.training_steps := by
  induction rs with
  | nil =>
      intro i cur _ _ _ hle
      rw [build_segments]
      by_cases h : cur < c.training_steps
      · rw [if_pos h]
        exact ⟨rfl, hle, rfl⟩
      · rw [if_neg h]
        exact le_antisymm hle (not_lt.mp h)
  | cons r rest ih =>
      intro i cur hbnd hchain hhead hle
      have hr := hbnd r (List.mem_cons_self r rest)
      have hcur_r : cur ≤ r.start := hhead r rfl
      have hch := List.chain'_cons'.mp hchain
      have htail := ih (i + 1) r.stop (fun x hx => hbnd x (List.mem_cons_of_mem r hx))
        hch.2 (fun r0 h0 => hch.1 r0 h0) hr.2
      rw [build_segments]
      by_cases hcr : cur < r.start
      · rw [if_pos hcr]
        exact ⟨rfl, le_of_lt hcr, rfl, hr.1, htail⟩
      · rw [if_neg hcr]
        have : r.start = cur := le_antisymm (not_lt.mp hcr) hcur_r
        exact ⟨this, hr.1, htail⟩

lemma get_lr_length (c : Config) (s : ℤ) : (c.get_lr s).length = c.base_lrs.length := by
  rw [Config.get_lr]
  split
  · rfl
  · split <;> simp

lemma get_lr_cosine_branch {c : Config} {s : ℤ} (h0 : 0 ≤ s) (hw : c.warmup_steps ≤ s) :
    c.get_lr s = (List.range c.base_lrs.length).map (fun i => c.get_cosine_lr s i) := by
  rw [Config.get_lr, if_neg (not_lt.mpr h0), if_neg (not_lt.mpr hw)]

lemma segments_of_none {c : Config} (h : c.plateau_steps = none) :
    c.segments = [Segment.cosine 0 c.training_steps c.base_lrs c.min_lrs] := by
  rw [Config.segments, h]

lemma segments_of_some_nil {c : Config} (h : c.plateau_steps = some []) :
    c.segments = [Segment.cosine 0 c.training_steps c.base_lrs c.min_lrs] := by
  rw [Config.segments, h]

lemma segments_of_cons {c : Config} {d : ℚ × ℚ} {ds : List (ℚ × ℚ)}
    (h : c.plateau_steps = some (d :: ds)) :
    c.segments = build_segments c c.plateau_regions 0 0 := by
  rw [Config.segments, h]

/-- The compiled table is contiguous, ordered, and covers
`[0, training_steps)` exactly when the sorted regions are pairwise
non-overlapping and end within `training_steps`. -/
lemma segments_chain_covers {c : Config} (hv : c.Valid)
    (hch : List.Chain' (fun a b : PlateauRegion => a.stop ≤ b.start) c.plateau_regions)
    (hfit : ∀ r ∈ c.plateau_regions, r.stop ≤ c.training_steps) :
    chain_covers 0 (seg_bounds c.segments) c.training_steps := by
  have hT : (0 : ℤ) ≤ c.training_steps := training_steps_nonneg hv
  rcases hc : c.plateau_steps with _ | l
  · rw [segments_of_none hc]
    exact ⟨rfl, hT, rfl⟩
  · cases l with
    | nil =>
        rw [segments_of_some_nil hc]
        exact ⟨rfl, hT, rfl⟩
    | cons d ds =>
        rw [segments_of_cons hc]
        refine build_chain_covers c c.plateau_regions 0 0 ?_ hch ?_ hT
        · intro r hr
          exact ⟨(region_facts hv hr).2.1, hfit r hr⟩
        · intro r0 h0
          have : r0 ∈ c.plateau_regions := List.mem_of_mem_head? h0
          exact (region_facts hv this).1

/-- The compiled table is ordered and pairwise disjoint whenever the sorted
regions are pairwise non-overlapping — no requirement that they end within
`training_steps`. -/
lemma segments_chain_from {c : Config} (hv : c.Valid)
    (hch : List.Chain' (fun a b : PlateauRegion => a.stop ≤ b.start) c.plateau_regions) :
    chain_from 0 (seg_bounds c.segments) := by
  have hT : (0 : ℤ) ≤ c.training_steps := training_steps_nonneg hv
  rcases hc : c.plateau_steps with _ | l
  · rw [segments_of_none hc]
    exact ⟨le_refl 0, hT, trivial⟩
  · cases l with
    | nil =>
        rw [segments_of_some_nil hc]
        exact ⟨le_refl 0, hT, trivial⟩
    | cons d ds =>
        rw [segments_of_cons hc]
        refine build_chain_from c c.plateau_regions 0 0 ?_ hch ?_
        · intro r hr
          exact (region_facts hv hr).2.1
        · intro r0 h0
          have : r0 ∈ c.plateau_regions := List.mem_of_mem_head? h0
          exact (region_facts hv this).1

lemma valid_cfg5 : cfg5.Valid := by
  refine ⟨by norm_num [cfg5], by norm_num [cfg5], by norm_num [cfg5], ?_,
    by norm_num [cfg5], by norm_num [cfg5], ?_⟩
  · intro b hb
    rw [show cfg5.base_lrs = [(0.1 : ℝ)] from rfl] at hb
    rcases List.mem_singleton.mp hb with rfl
    norm_num
  · intro d hd
    rw [show cfg5.descriptors = [] from rfl] at hd
    cases hd

lemma valid_cfg6 : cfg6.Valid := by
  refine ⟨by norm_num [cfg6], by norm_num [cfg6], by norm_num [cfg6], ?_,
    by norm_num [cfg6], by norm_num [cfg6], ?_⟩
  · intro b hb
    rw [show cfg6.base_lrs = [(1 : ℝ)] from rfl] at hb
    rcases List.mem_singleton.mp hb with rfl
    norm_num
  · intro d hd
    rw [show cfg6.descriptors = [(20, 20), (35, 20)] from rfl] at hd
    simp only [List.mem_cons, List.not_mem_nil, or_false] at hd
    rcases hd with rfl | rfl <;>
      exact ⟨by norm_num, by norm_num, by norm_num, by norm_num⟩

lemma cfg6_regions : cfg6.plateau_regions = [⟨20, 40⟩, ⟨35, 55⟩] := by
  norm_num [Config.plateau_regions, Config.descriptors, cfg6, mk_region, int_trunc,
    Config.training_steps, List.insertionSort, List.orderedInsert]

lemma cfg6_len_pos : 0 < cfg6.plateau_regions.length := by
  rw [cfg6_regions]; norm_num

lemma cfg6_desc_ne : cfg6.descriptors ≠ [] := by
  rw [show cfg6.descriptors = [(20, 20), (35, 20)] from rfl]
  exact List.cons_ne_nil _ _

/-- A configuration with two non-overlapping plateau windows:
`total_steps=100, warmup_steps=0, base_lr=1, min_lr_ratio=0`,
`plateau_steps=[(20, 20), (60, 20)]`, giving regions `[20, 40)` and
`[60, 80)`. -/
noncomputable def cfg7 : Config := ⟨100, 0, [1], 0, "linear", some [(20, 20), (60, 20)]⟩

lemma valid_cfg7 : cfg7.Valid := by
  refine ⟨by norm_num [cfg7], by norm_num [cfg7], by norm_num [cfg7], ?_,
    by norm_num [cfg7], by norm_num [cfg7], ?_⟩
  · intro b hb
    rw [show cfg7.base_lrs = [(1 : ℝ)] from rfl] at hb
    rcases List.mem_singleton.mp hb with rfl
    norm_num
  · intro d hd
    rw [show cfg7.descriptors = [(20, 20), (60, 20)] from rfl] at hd
    simp only [List.mem_cons, List.not_mem_nil, or_false] at hd
    rcases hd with rfl | rfl <;>
      exact ⟨by norm_num, by norm_num, by norm_num, by norm_num⟩

lemma cfg7_regions : cfg7.plateau_regions = [⟨20, 40⟩, ⟨60, 80⟩] := by
  norm_num [Config.plateau_regions, Config.descriptors, cfg7, mk_region, int_trunc,
    Config.training_steps, List.insertionSort, List.orderedInsert]

lemma cfg7_chain : List.Chain' (fun a b : PlateauRegion => a.stop ≤ b.start)
    cfg7.plateau_regions := by
  rw [cfg7_regions]
  refine List.chain'_cons.mpr ⟨by norm_num, ?_⟩
  exact List.chain'_singleton _

lemma cfg7_fit : ∀ r ∈ cfg7.plateau_regions, r.stop ≤ cfg7.training_steps := by
  rw [cfg7_regions, show cfg7.training_steps = 100 from rfl]
  intro r hr
  simp only [List.mem_cons, List.not_mem_nil, or_false] at hr
  rcases hr with rfl | rfl <;> norm_num

lemma cfg7_len_pos : 0 < cfg7.plateau_regions.length := by
  rw [cfg7_regions]; norm_num

lemma cfg7_desc_ne : cfg7.descriptors ≠ [] := by
  rw [show cfg7.descriptors = [(20, 20), (60, 20)] from rfl]
  exact List.cons_ne_nil _ _

/-! ## Claim theorems -/

/-- C7: for every configuration accepted by the constructor and every step
`s` with `s ≥ total_steps`, evaluation never errors and returns `min_lrs`
(`base_lr * min_lr_ratio` per group) as a terminal floor value: whenever the
adjusted step is contained in no compiled segment the evaluator falls back
to `min_lrs`, and a plateau segment that overruns `training_steps` holds
exactly `min_lrs`, so stepping past `total_steps` always clamps to the
floor rate. -/
theorem claim_c7_past_end_floor (c : Config) (hv : c.Valid) (s : ℤ)
    (hs : c.total_steps ≤ s) : c.get_lr s = c.min_lrs := by
  have h0 : (0 : ℤ) ≤ s := le_trans (le_of_lt hv.total_pos) hs
  have hw : c.warmup_steps ≤ s := le_trans hv.warmup_le hs
  have ha : c.training_steps ≤ s - c.warmup_steps := by
    rw [Config.training_steps]; omega
  rw [get_lr_cosine_branch h0 hw]
  refine List.ext_getElem (by rw [List.length_map, List.length_range, min_lrs_length]) ?_
  intro n hn1 hn2
  have hnb : n < c.base_lrs.length := by simpa using hn1
  have hnm : n < c.min_lrs.length := by rw [min_lrs_length]; exact hnb
  rw [List.getElem_map, List.getElem_range, Config.get_cosine_lr]
  rcases hfind : c.segments.find? (fun sg => sg.containsB (s - c.warmup_steps)) with _ | seg
  · rw [hfind]
    show c.min_lrs.getD n 0 = c.min_lrs[n]
    exact List.getD_eq_getElem _ _ hnm
  · rw [hfind]
    show eval_segment seg (s - c.warmup_steps) n = c.min_lrs[n]
    have hcont := List.find?_some hfind
    simp only [Segment.containsB, Bool.and_eq_true, decide_eq_true_eq] at hcont
    rcases segments_cases hv (List.mem_of_find?_eq_some hfind) with
      ⟨a, b, sl, el, rfl, hb, hsl, hel⟩ | ⟨j, hj, rfl⟩
    · simp only [Segment.start, Segment.stop] at hcont
      omega
    · simp only [Segment.start, Segment.stop] at hcont
      have hover : c.training_steps < (c.plateau_regions.get ⟨j, hj⟩).stop := by omega
      have hmin := plateau_lr_of_stop_gt hv hj hover
      show (c.plateau_lr j).getD n 0 = c.min_lrs[n]
      rw [hmin]
      exact List.getD_eq_getElem _ _ hnm

/-- Witness for C7: the spec's concrete configuration at step 1000. -/
theorem claim_c7_witness : cfg5.get_lr 1000 = cfg5.min_lrs :=
  claim_c7_past_end_floor cfg5 valid_cfg5 1000 (by norm_num [cfg5])

/-- C1: for every accepted configuration with plateau descriptors, the held
learning rate of plateau window `i` (in sorted order) is the global cosine
curve evaluated at the window's effective position
`start_i - Σ_{j<i}(end_j - start_j)`, with progress clamped to `[0, 1]`
over `effective_training_steps`, per group
`min_lr + (base_lr - min_lr) * 0.5 * (1 + cos(pi * progress))`; when
`effective_training_steps ≤ 0` the held value is `min_lrs`.  The compiled
table contains exactly this plateau segment. -/
theorem claim_c1_plateau_held_lr (c : Config) (hv : c.Valid)
    (hne : c.descriptors ≠ []) (i : ℕ) (hi : i < c.plateau_regions.length) :
    Segment.plateau (c.plateau_regions.get ⟨i, hi⟩).start (c.plateau_regions.get ⟨i, hi⟩).stop
      (if 0 < c.effective_training_steps then
        c.base_lrs.map (fun b => b * c.min_lr_factor + (b - b * c.min_lr_factor) *
          (1 / 2 * (1 + Real.cos (Real.pi * clamp01
            ((((c.plateau_regions.get ⟨i, hi⟩).start
                - ((c.plateau_regions.take i).map (fun r => r.stop - r.start)).sum : ℤ) : ℝ)
              / (c.effective_training_steps : ℝ))))))
      else c.min_lrs) ∈ c.segments := by
  have hpos : c.effective_position i
      = (c.plateau_regions.get ⟨i, hi⟩).start
        - ((c.plateau_regions.take i).map (fun r => r.stop - r.start)).sum := by
    rw [Config.effective_position, List.getD_eq_getElem _ _ hi]
    rfl
  have hheld : (if 0 < c.effective_training_steps then
        c.base_lrs.map (fun b => b * c.min_lr_factor + (b - b * c.min_lr_factor) *
          (1 / 2 * (1 + Real.cos (Real.pi * clamp01
            ((((c.plateau_regions.get ⟨i, hi⟩).start
                - ((c.plateau_regions.take i).map (fun r => r.stop - r.start)).sum : ℤ) : ℝ)
              / (c.effective_training_steps : ℝ))))))
      else c.min_lrs) = c.plateau_lr i := by
    rw [plateau_lr_eq, hpos]
    simp only [cosine_factor, Config.min_lrs]
  rw [hheld]
  exact segments_plateau_mem hne i hi

/-- Witness for C1: cfg6's first sorted window. -/
theorem claim_c1_witness :
    Segment.plateau (cfg6.plateau_regions.get ⟨0, cfg6_len_pos⟩).start
      (cfg6.plateau_regions.get ⟨0, cfg6_len_pos⟩).stop
      (if 0 < cfg6.effective_training_steps then
        cfg6.base_lrs.map (fun b => b * cfg6.min_lr_factor + (b - b * cfg6.min_lr_factor) *
          (1 / 2 * (1 + Real.cos (Real.pi * clamp01
            ((((cfg6.plateau_regions.get ⟨0, cfg6_len_pos⟩).start
                - ((cfg6.plateau_regions.take 0).map (fun r => r.stop - r.start)).sum : ℤ) : ℝ)
              / (cfg6.effective_training_steps : ℝ))))))
      else cfg6.min_lrs) ∈ cfg6.segments :=
  claim_c1_plateau_held_lr cfg6 valid_cfg6 cfg6_desc_ne 0 cfg6_len_pos

/-- C2 is false as stated: cfg6 is accepted by the constructor (its
percentages are in range), yet its compiled table
`[(0,20), (20,40), (35,55), (55,100)]` is not contiguous — the second
segment ends at 40 while the third starts at 35 (overlap), so the table
does not cover `[0, training_steps)` in the claimed way. -/
theorem claim_c2_counterexample :
    cfg6.Valid ∧ seg_bounds cfg6.segments = [(0, 20), (20, 40), (35, 55), (55, 100)] ∧
    ¬ chain_covers 0 (seg_bounds cfg6.segments) cfg6.training_steps := by
  have hb : seg_bounds cfg6.segments = [(0, 20), (20, 40), (35, 55), (55, 100)] := by
    rw [segments_of_cons (show cfg6.plateau_steps = some [(20, 20), (35, 20)] from rfl),
      cfg6_regions]
    norm_num [build_segments, seg_bounds, Segment.start, Segment.stop,
      show cfg6.training_steps = 100 from rfl]
  refine ⟨valid_cfg6, hb, ?_⟩
  rw [hb, show cfg6.training_steps = 100 from rfl]
  intro h
  simp only [chain_covers] at h
  omega

/-- C2 (amended): for every accepted configuration whose sorted plateau
windows are pairwise non-overlapping (each window ends no later than the
next begins) and end within `training_steps`, the compiled segment list is
contiguous and non-overlapping, ordered ascending by start, and covers
`[0, training_steps)` exactly (first start 0, each end equal to the next
start, last end equal to `training_steps`). -/
theorem claim_c2_amended_contiguous (c : Config) (hv : c.Valid)
    (hch : List.Chain' (fun a b : PlateauRegion => a.stop ≤ b.start) c.plateau_regions)
    (hfit : ∀ r ∈ c.plateau_regions, r.stop ≤ c.training_steps) :
    chain_covers 0 (seg_bounds c.segments) c.training_steps :=
  segments_chain_covers hv hch hfit

/-- Witness for amended C2 at cfg7 (two disjoint windows). -/
theorem claim_c2_witness :
    chain_covers 0 (seg_bounds cfg7.segments) cfg7.training_steps :=
  claim_c2_amended_contiguous cfg7 valid_cfg7 cfg7_chain cfg7_fit

/-- C3: with `plateau_steps = None` the compiled table is the single cosine
segment over `[0, training_steps)` from `base_lrs` to `min_lrs`, and for
every step `s` with `warmup_steps ≤ s < total_steps` the table evaluation
equals the spec's direct global cosine formula
`min_lr + (base_lr - min_lr) * 0.5 * (1 + cos(pi (s - warmup) / training_steps))`
per group. -/
theorem claim_c3_no_plateau_reduction (c : Config) (hv : c.Valid)
    (hnone : c.plateau_steps = none) :
    c.segments = [Segment.cosine 0 c.training_steps c.base_lrs c.min_lrs] ∧
    ∀ s : ℤ, c.warmup_steps ≤ s → s < c.total_steps →
      c.get_lr s = spec_single_cosine c s := by
  refine ⟨segments_of_none hnone, ?_⟩
  intro s hw hs
  have h0 : (0 : ℤ) ≤ s := le_trans hv.warmup_nonneg hw
  have ha0 : (0 : ℤ) ≤ s - c.warmup_steps := by omega
  have haT : s - c.warmup_steps < c.training_steps := by
    rw [Config.training_steps]; omega
  rw [get_lr_cosine_branch h0 hw]
  refine List.ext_getElem
    (by rw [List.length_map, List.length_range]; simp [spec_single_cosine]) ?_
  intro n hn1 hn2
  have hnb : n < c.base_lrs.length := by simpa using hn1
  have hnm : n < c.min_lrs.length := by rw [min_lrs_length]; exact hnb
  rw [List.getElem_map, List.getElem_range, Config.get_cosine_lr, segments_of_none hnone]
  have hfind : [Segment.cosine 0 c.training_steps c.base_lrs c.min_lrs].find?
      (fun sg => sg.containsB (s - c.warmup_steps))
      = some (Segment.cosine 0 c.training_steps c.base_lrs c.min_lrs) := by
    apply List.find?_cons_of_pos
    simp only [Segment.containsB, Segment.start, Segment.stop, Bool.and_eq_true,
      decide_eq_true_eq]
    omega
  rw [hfind]
  show eval_segment (Segment.cosine 0 c.training_steps c.base_lrs c.min_lrs)
      (s - c.warmup_steps) n = (spec_single_cosine c s)[n]
  simp only [eval_segment]
  rw [if_neg (by omega)]
  simp only [spec_single_cosine, List.getElem_map, cosine_factor,
    List.getD_eq_getElem _ _ hnm, List.getD_eq_getElem _ _ hnb, Config.min_lrs]
  norm_num [List.getElem?_eq_getElem hnb]

/-- Witness for C3: the spec's concrete configuration at step 100. -/
theorem claim_c3_witness :
    cfg5.segments = [Segment.cosine 0 cfg5.training_steps cfg5.base_lrs cfg5.min_lrs] ∧
    cfg5.get_lr 100 = spec_single_cosine cfg5 100 :=
  ⟨(claim_c3_no_plateau_reduction cfg5 valid_cfg5 rfl).1,
   (claim_c3_no_plateau_reduction cfg5 valid_cfg5 rfl).2 100
     (by norm_num [cfg5]) (by norm_num [cfg5])⟩

/-- C4 is false as stated: in the spec's own concrete configuration
(`base_lr=0.1, min_lr_ratio=0.1`) the warm-up ramp starts at 0, so at step
0 the evaluated rate 0 lies below `min_lr - 1e-6 = 0.01 - 0.000001`; the
floor is not respected during warm-up. -/
theorem claim_c4_counterexample :
    cfg5.Valid ∧
    ¬ (∀ s : ℤ, 0 ≤ s → s < cfg5.total_steps →
        ∀ n, n < cfg5.base_lrs.length →
          cfg5.min_lrs.getD n 0 - 1 / 1000000 ≤ (cfg5.get_lr s).getD n 0) := by
  refine ⟨valid_cfg5, ?_⟩
  intro h
  have h0 := h 0 le_rfl (by norm_num [cfg5]) 0 (by norm_num [cfg5])
  have hlr : cfg5.get_lr 0 = [0] := by
    norm_num [Config.get_lr, Config.get_warmup_lr, cfg5]
  have hm5 : cfg5.min_lrs = [1 / 100] := by
    norm_num [Config.min_lrs, cfg5]
  rw [hlr, hm5] at h0
  norm_num at h0

/-- C4 (amended): for every accepted configuration, the floor is respected
at every post-warm-up in-range step: for `warmup_steps ≤ s < total_steps`,
each group's evaluated rate is at least its `min_lr = base_lr * min_lr_ratio`
(exactly, hence in particular at least `min_lr - 1e-6`).  During warm-up the
rate ramps from 0 and may be below the floor. -/
theorem claim_c4_amended_floor (c : Config) (hv : c.Valid) (s : ℤ)
    (hw : c.warmup_steps ≤ s) (hs : s < c.total_steps)
    (n : ℕ) (hn : n < c.base_lrs.length) :
    c.min_lrs.getD n 0 ≤ (c.get_lr s).getD n 0 := by
  have h0 : (0 : ℤ) ≤ s := le_trans hv.warmup_nonneg hw
  have hre : ((List.range c.base_lrs.length).map (fun i => c.get_cosine_lr s i)).getD n 0
      = c.get_cosine_lr s n := by
    rw [List.getD_eq_getElem _ _ (by simpa using hn), List.getElem_map, List.getElem_range]
  rw [get_lr_cosine_branch h0 hw, hre, Config.get_cosine_lr]
  rcases hfind : c.segments.find? (fun sg => sg.containsB (s - c.warmup_steps)) with _ | seg
  · rw [hfind]
  · rw [hfind]
    show c.min_lrs.getD n 0 ≤ eval_segment seg (s - c.warmup_steps) n
    rcases segments_cases hv (List.mem_of_find?_eq_some hfind) with
      ⟨a, b, sl, el, rfl, hb, hsl, hel⟩ | ⟨j, hj, rfl⟩
    · simp only [eval_segment]
      split
      · exact goodLRs_ge_min hv hsl n hn
      · have h1 := goodLRs_ge_min hv hsl n hn
        have h2 := goodLRs_ge_min hv hel n hn
        have hc0 := cosine_factor_nonneg
          (((s - c.warmup_steps - a : ℤ) : ℝ) / ((b - a : ℤ) : ℝ))
        have hc1 := cosine_factor_le_one
          (((s - c.warmup_steps - a : ℤ) : ℝ) / ((b - a : ℤ) : ℝ))
        nlinarith [mul_nonneg (by linarith : (0 : ℝ) ≤ sl.getD n 0 - c.min_lrs.getD n 0) hc0,
          mul_nonneg (by linarith : (0 : ℝ) ≤ el.getD n 0 - c.min_lrs.getD n 0)
            (by linarith : (0 : ℝ) ≤ 1 - cosine_factor
              (((s - c.warmup_steps - a : ℤ) : ℝ) / ((b - a : ℤ) : ℝ)))]
    · simp only [eval_segment]
      exact goodLRs_ge_min hv (goodLRs_plateau c j) n hn

/-- Witness for amended C4: cfg5 at step 100, group 0. -/
theorem claim_c4_witness :
    cfg5.min_lrs.getD 0 0 ≤ (cfg5.get_lr 100).getD 0 0 :=
  claim_c4_amended_floor cfg5 valid_cfg5 100 (by norm_num [cfg5]) (by norm_num [cfg5])
    0 (by norm_num [cfg5])

lemma cfg5_segments : cfg5.segments = [Segment.cosine 0 900 cfg5.base_lrs cfg5.min_lrs] := by
  rw [segments_of_none rfl, show cfg5.training_steps = 900 from rfl]

lemma cfg5_min_lrs : cfg5.min_lrs = [1 / 100] := by
  norm_num [Config.min_lrs, cfg5]

/-- C5: for `total_steps=1000, warmup_steps=100, min_lr_ratio=0.1,
base_lr=0.1` with no plateaus, the evaluated rate is 0 at step 0, 0.05 at
step 50, exactly 0.1 at step 100 (end of warm-up), and 0.01
(`base_lr * min_lr_ratio`) at every step `s ≥ 1000`. -/
theorem claim_c5_concrete_scenario :
    cfg5.get_lr 0 = [0] ∧ cfg5.get_lr 50 = [1 / 20] ∧ cfg5.get_lr 100 = [1 / 10] ∧
    ∀ s : ℤ, 1000 ≤ s → cfg5.get_lr s = [1 / 100] := by
  refine ⟨?_, ?_, ?_, ?_⟩
  · norm_num [Config.get_lr, Config.get_warmup_lr, cfg5]
  · norm_num [Config.get_lr, Config.get_warmup_lr, cfg5]
  · rw [get_lr_cosine_branch (by norm_num) (by norm_num [cfg5]),
      show cfg5.base_lrs.length = 1 from rfl]
    rw [show List.range 1 = [0] from rfl]
    simp only [List.map_cons, List.map_nil]
    rw [Config.get_cosine_lr, cfg5_segments, show cfg5.warmup_steps = 100 from rfl]
    rw [show (100 : ℤ) - 100 = 0 from by norm_num]
    rw [List.find?_cons_of_pos _
      (by simp [Segment.containsB, Segment.start, Segment.stop])]
    show [eval_segment (Segment.cosine 0 900 cfg5.base_lrs cfg5.min_lrs) 0 0] = [1 / 10]
    simp only [eval_segment]
    rw [if_neg (by norm_num), cfg5_min_lrs, show cfg5.base_lrs = [(0.1 : ℝ)] from rfl]
    norm_num [cosine_factor]
  · intro s hs
    have h0 : (0 : ℤ) ≤ s := by omega
    rw [get_lr_cosine_branch h0 (by rw [show cfg5.warmup_steps = 100 from rfl]; omega),
      show cfg5.base_lrs.length = 1 from rfl]
    rw [show List.range 1 = [0] from rfl]
    simp only [List.map_cons, List.map_nil]
    rw [Config.get_cosine_lr, cfg5_segments, show cfg5.warmup_steps = 100 from rfl]
    have hnone : [Segment.cosine 0 900 cfg5.base_lrs cfg5.min_lrs].find?
        (fun sg => sg.containsB (s - 100)) = none := by
      rw [List.find?_eq_none]
      intro seg hmem
      rcases List.mem_singleton.mp hmem with rfl
      simp only [Segment.containsB, Segment.start, Segment.stop, Bool.and_eq_true,
        decide_eq_true_eq, not_and, not_lt]
      intro
      omega
    rw [hnone]
    show [cfg5.min_lrs.getD 0 0] = [1 / 100]
    rw [cfg5_min_lrs]
    norm_num

/-- Witness for C5's universally quantified clamp clause, at step 1000. -/
theorem claim_c5_witness : cfg5.get_lr 1000 = [1 / 100] :=
  claim_c5_concrete_scenario.2.2.2 1000 (by norm_num)

lemma clamp01_of_mem {x : ℝ} (h0 : 0 ≤ x) (h1 : x ≤ 1) : clamp01 x = x := by
  unfold clamp01
  rw [min_eq_right h1, max_eq_right h0]

lemma cfg6_effT : cfg6.effective_training_steps = 60 := by
  norm_num [Config.effective_training_steps, Config.total_plateau_duration, cfg6_regions,
    show cfg6.training_steps = 100 from rfl]

lemma cfg6_effpos0 : cfg6.effective_position 0 = 20 := by
  norm_num [Config.effective_position, cfg6_regions]

lemma cfg6_effpos1 : cfg6.effective_position 1 = 15 := by
  norm_num [Config.effective_position, cfg6_regions]

lemma cfg6_plateau_lr0 : cfg6.plateau_lr 0 = [3 / 4] := by
  rw [plateau_lr_eq, if_pos (by rw [cfg6_effT]; norm_num), cfg6_effpos0, cfg6_effT,
    show cfg6.base_lrs = [(1 : ℝ)] from rfl, show cfg6.min_lr_factor = 0 from rfl]
  simp only [List.map_cons, List.map_nil]
  rw [show ((20 : ℤ) : ℝ) / ((60 : ℤ) : ℝ) = 1 / 3 from by norm_num]
  rw [clamp01_of_mem (by norm_num) (by norm_num)]
  unfold cosine_factor
  rw [show Real.pi * (1 / 3) = Real.pi / 3 from by ring, Real.cos_pi_div_three]
  norm_num

lemma cfg6_plateau_lr1 : cfg6.plateau_lr 1 = [(2 + Real.sqrt 2) / 4] := by
  rw [plateau_lr_eq, if_pos (by rw [cfg6_effT]; norm_num), cfg6_effpos1, cfg6_effT,
    show cfg6.base_lrs = [(1 : ℝ)] from rfl, show cfg6.min_lr_factor = 0 from rfl]
  simp only [List.map_cons, List.map_nil]
  rw [show ((15 : ℤ) : ℝ) / ((60 : ℤ) : ℝ) = 1 / 4 from by norm_num]
  rw [clamp01_of_mem (by norm_num) (by norm_num)]
  unfold cosine_factor
  rw [show Real.pi * (1 / 4) = Real.pi / 4 from by ring, Real.cos_pi_div_four]
  have harith : (1 : ℝ) * 0 + (1 - 1 * 0) * (1 / 2 * (1 + Real.sqrt 2 / 2))
      = (2 + Real.sqrt 2) / 4 := by ring
  rw [harith]

lemma cfg6_segments : cfg6.segments =
    [Segment.cosine 0 20 cfg6.base_lrs (cfg6.plateau_lr 0),
     Segment.plateau 20 40 (cfg6.plateau_lr 0),
     Segment.plateau 35 55 (cfg6.plateau_lr 1),
     Segment.cosine 55 100 (cfg6.plateau_lr 1) cfg6.min_lrs] := by
  rw [segments_of_cons (show cfg6.plateau_steps = some [(20, 20), (35, 20)] from rfl),
    cfg6_regions]
  norm_num [build_segments, Config.prev_lrs, show cfg6.training_steps = 100 from rfl]

lemma cfg6_lr36 : cfg6.get_lr 36 = [3 / 4] := by
  rw [get_lr_cosine_branch (by norm_num) (by rw [show cfg6.warmup_steps = 0 from rfl]; norm_num),
    show cfg6.base_lrs.length = 1 from rfl]
  rw [show List.range 1 = [0] from rfl]
  simp only [List.map_cons, List.map_nil]
  rw [Config.get_cosine_lr, cfg6_segments, show cfg6.warmup_steps = 0 from rfl]
  rw [show (36 : ℤ) - 0 = 36 from by norm_num]
  rw [List.find?_cons_of_neg _
    (by simp [Segment.containsB, Segment.start, Segment.stop])]
  rw [List.find?_cons_of_pos _
    (by simp [Segment.containsB, Segment.start, Segment.stop])]
  show [(cfg6.plateau_lr 0).getD 0 0] = [3 / 4]
  rw [cfg6_plateau_lr0]
  norm_num

lemma cfg6_lr45 : cfg6.get_lr 45 = [(2 + Real.sqrt 2) / 4] := by
  rw [get_lr_cosine_branch (by norm_num) (by rw [show cfg6.warmup_steps = 0 from rfl]; norm_num),
    show cfg6.base_lrs.length = 1 from rfl]
  rw [show List.range 1 = [0] from rfl]
  simp only [List.map_cons, List.map_nil]
  rw [Config.get_cosine_lr, cfg6_segments, show cfg6.warmup_steps = 0 from rfl]
  rw [show (45 : ℤ) - 0 = 45 from by norm_num]
  rw [List.find?_cons_of_neg _
    (by simp [Segment.containsB, Segment.start, Segment.stop])]
  rw [List.find?_cons_of_neg _
    (by simp [Segment.containsB, Segment.start, Segment.stop])]
  rw [List.find?_cons_of_pos _
    (by simp [Segment.containsB, Segment.start, Segment.stop])]
  show [(cfg6.plateau_lr 1).getD 0 0] = [(2 + Real.sqrt 2) / 4]
  rw [cfg6_plateau_lr1]
  norm_num

/-- C6 is false as stated: cfg6 is accepted by the constructor, the steps 36
and 45 both lie strictly inside the second sorted plateau window `[35, 55)`,
yet the evaluated rates `3/4` and `(2 + √2)/4` differ by `(√2 - 1)/4 ≈ 0.104
> 1e-6`, because the overlapping earlier plateau segment `[20, 40)` captures
steps 36..39 during the scan. -/
theorem claim_c6_counterexample :
    cfg6.Valid ∧ cfg6.plateau_regions = [⟨20, 40⟩, ⟨35, 55⟩] ∧
    cfg6.get_lr 36 = [3 / 4] ∧ cfg6.get_lr 45 = [(2 + Real.sqrt 2) / 4] ∧
    1 / 1000000 < (2 + Real.sqrt 2) / 4 - 3 / 4 := by
  refine ⟨valid_cfg6, cfg6_regions, cfg6_lr36, cfg6_lr45, ?_⟩
  nlinarith [Real.sq_sqrt (by norm_num : (0 : ℝ) ≤ 2), Real.sqrt_nonneg 2]

/-- C6 (amended): for every accepted configuration whose sorted plateau
windows are pairwise non-overlapping, every step whose adjusted index lies
in window `i` evaluates to that window's single precomputed held vector —
hence any two steps inside the window yield identical learning rates for
every parameter group.  This covers windows overrunning `training_steps`
(there the held vector is `min_lrs`, progress having clamped to 1). -/
theorem claim_c6_amended_flat (c : Config) (hv : c.Valid)
    (hch : List.Chain' (fun a b : PlateauRegion => a.stop ≤ b.start) c.plateau_regions)
    (hne : c.descriptors ≠ []) (i : ℕ) (hi : i < c.plateau_regions.length)
    (s t : ℤ)
    (hs1 : (c.plateau_regions.get ⟨i, hi⟩).start ≤ s - c.warmup_steps)
    (hs2 : s - c.warmup_steps < (c.plateau_regions.get ⟨i, hi⟩).stop)
    (ht1 : (c.plateau_regions.get ⟨i, hi⟩).start ≤ t - c.warmup_steps)
    (ht2 : t - c.warmup_steps < (c.plateau_regions.get ⟨i, hi⟩).stop) :
    c.get_lr s = c.plateau_lr i ∧ c.get_lr t = c.plateau_lr i := by
  have key : ∀ u : ℤ, (c.plateau_regions.get ⟨i, hi⟩).start ≤ u - c.warmup_steps →
      u - c.warmup_steps < (c.plateau_regions.get ⟨i, hi⟩).stop →
      c.get_lr u = c.plateau_lr i := by
    intro u h1 h2
    have hstart0 : 0 ≤ (c.plateau_regions.get ⟨i, hi⟩).start :=
      (region_facts hv (List.get_mem _ _ _)).1
    have hwn := hv.warmup_nonneg
    have hw : c.warmup_steps ≤ u := by omega
    have h0 : (0 : ℤ) ≤ u := by omega
    have hfind := find?_chain (segments_chain_from hv hch)
      (segments_plateau_mem hne i hi) h1 h2
    rw [get_lr_cosine_branch h0 hw]
    refine List.ext_getElem
      (by rw [List.length_map, List.length_range, plateau_lr_length]) ?_
    intro n hn1 hn2
    rw [List.getElem_map, List.getElem_range, Config.get_cosine_lr, hfind]
    show (c.plateau_lr i).getD n 0 = (c.plateau_lr i)[n]
    exact List.getD_eq_getElem _ _ (by simpa using hn2)
  exact ⟨key s hs1 hs2, key t ht1 ht2⟩

lemma cfg7_region0 : cfg7.plateau_regions.get ⟨0, cfg7_len_pos⟩ = ⟨20, 40⟩ := by
  simp [List.get_eq_getElem, cfg7_regions]

/-- Witness for amended C6: cfg7's first window at steps 25 and 30. -/
theorem claim_c6_witness :
    cfg7.get_lr 25 = cfg7.plateau_lr 0 ∧ cfg7.get_lr 30 = cfg7.plateau_lr 0 :=
  claim_c6_amended_flat cfg7 valid_cfg7 cfg7_chain cfg7_desc_ne 0 cfg7_len_pos
    25 30
    (by rw [cfg7_region0, show cfg7.warmup_steps = 0 from rfl]; norm_num)
    (by rw [cfg7_region0, show cfg7.warmup_steps = 0 from rfl]; norm_num)
    (by rw [cfg7_region0, show cfg7.warmup_steps = 0 from rfl]; norm_num)
    (by rw [cfg7_region0, show cfg7.warmup_steps = 0 from rfl]; norm_num)

/-- C8: construction raises exactly when some plateau descriptor percentage
leaves `[0, 100]` or the (lower-cased) warm-up shape identifier is not
`linear`; the check happens synchronously in the constructor (modelled by
`validate_config`), all other inputs are accepted, and evaluation is total:
`get_lr` returns a vector of one rate per parameter group for every integer
step, never an error. -/
theorem claim_c8_validation :
    (∀ (wt : String) (ps : Option (List (ℚ × ℚ))),
      (∃ e, validate_config wt ps = Except.error e) ↔
        (lower_str wt ≠ "linear" ∨ ∃ d ∈ ps.getD [], ¬ ValidPct d)) ∧
    (∀ (c : Config) (s : ℤ), (c.get_lr s).length = c.base_lrs.length) := by
  constructor
  · intro wt ps
    rw [validate_config.eq_def]
    by_cases hwt : lower_str wt ≠ "linear"
    · rw [if_pos hwt]
      exact ⟨fun _ => Or.inl hwt, fun _ => ⟨_, rfl⟩⟩
    · rw [if_neg hwt]
      push_neg at hwt
      cases ps with
      | none =>
          simp only [Option.getD_none, List.not_mem_nil, false_and, exists_false, or_false]
          constructor
          · rintro ⟨e, he⟩
            cases he
          · intro h
            exact absurd h (by simp [hwt])
      | some l =>
          simp only [Option.getD_some]
          have hl : ∀ m : List (ℚ × ℚ), (∃ e, validate_pcts m = Except.error e) ↔
              ∃ d ∈ m, ¬ ValidPct d := by
            intro m
            induction m with
            | nil =>
                constructor
                · rintro ⟨e, he⟩
                  cases he
                · rintro ⟨d, hd, -⟩
                  cases hd
            | cons d rest ih =>
                rw [validate_pcts]
                by_cases h1 : 0 ≤ d.1 ∧ d.1 ≤ 100
                · rw [if_neg (by simpa using h1)]
                  by_cases h2 : 0 ≤ d.2 ∧ d.2 ≤ 100
                  · rw [if_neg (by simpa using h2)]
                    rw [ih]
                    constructor
                    · rintro ⟨x, hx, hnx⟩
                      exact ⟨x, List.mem_cons_of_mem d hx, hnx⟩
                    · rintro ⟨x, hx, hnx⟩
                      rcases List.mem_cons.mp hx with rfl | hx'
                      · exact absurd ⟨h1.1, h1.2, h2.1, h2.2⟩ hnx
                      · exact ⟨x, hx', hnx⟩
                  · rw [if_pos (by simpa using h2)]
                    refine ⟨fun _ => ⟨d, List.mem_cons_self d rest, ?_⟩, fun _ => ⟨_, rfl⟩⟩
                    intro hvp
                    exact h2 ⟨hvp.2.2.1, hvp.2.2.2⟩
                · rw [if_pos (by simpa using h1)]
                  refine ⟨fun _ => ⟨d, List.mem_cons_self d rest, ?_⟩, fun _ => ⟨_, rfl⟩⟩
                  intro hvp
                  exact h1 ⟨hvp.1, hvp.2.1⟩
          rw [hl]
          simp [hwt]
  · intro c s
    exact get_lr_length c s

/-- Witness for C8: a rejected warm-up shape and an accepted degenerate
configuration (`warmup_steps = total_steps`-style inputs validate fine). -/
theorem claim_c8_witness :
    (∃ e, validate_config "invalid" none = Except.error e) ∧
    ¬ (∃ e, validate_config "LINEAR" (some [(0, 0), (50, 100)]) = Except.error e) :=
  ⟨(claim_c8_validation.1 "invalid" none).mpr (Or.inl (by decide)),
   fun h => by
    rcases (claim_c8_validation.1 "LINEAR" (some [(0, 0), (50, 100)])).mp h with h1 | ⟨d, hd, hnd⟩
    · exact h1 (by decide)
    · simp only [Option.getD_some, List.mem_cons, List.not_mem_nil, or_false] at hd
      rcases hd with rfl | rfl <;> exact hnd (by norm_num [ValidPct])⟩

lemma step_sched_iterate (c : Config) (n : ℕ) :
    ∀ st : SchedulerState, (c.step_sched)^[n + 1] st
      = ⟨st.last_epoch + (n + 1 : ℕ), c.get_lr (st.last_epoch + (n + 1 : ℕ))⟩ := by
  induction n with
  | zero =>
      intro st
      rw [Function.iterate_one]
      simp [Config.step_sched]
  | succ m ih =>
      intro st
      rw [Function.iterate_succ_apply', ih st]
      simp only [Config.step_sched]
      have harith : st.last_epoch + (m + 1 : ℕ) + 1 = st.last_epoch + (m + 1 + 1 : ℕ) := by
        push_cast; ring
      rw [harith]

/-- C9 describes what the code should do but the code diverges (the repo's
own `test_resume_training` asserts this equivalence): construction itself
performs one advance-and-publish, so a fresh scheduler built with
`last_epoch = k-1` already sits at step `k`, and one further explicit
advance lands at step `k+1`.  With the spec's concrete configuration and
`k = 50`, the resumed path publishes `lr(51) = 0.051` while the
from-scratch path stepped 50 times publishes `lr(50) = 0.05`: a gap of
`1e-3 > 1e-6`. -/
theorem claim_c9_resume_divergence :
    (cfg5.step_sched (cfg5.init_sched 49)).last_lrs = [51 / 1000] ∧
    ((cfg5.step_sched)^[50] (cfg5.init_sched (-1))).last_lrs = [1 / 20] ∧
    |(51 / 1000 : ℝ) - 1 / 20| > 1 / 1000000 := by
  refine ⟨?_, ?_, by rw [abs_of_pos (by norm_num)]; norm_num⟩
  · simp only [Config.init_sched, Config.step_sched]
    norm_num [Config.get_lr, Config.get_warmup_lr, cfg5]
  · rw [show (50 : ℕ) = 49 + 1 from rfl, step_sched_iterate]
    simp only [Config.init_sched, Config.step_sched]
    norm_num [Config.get_lr, Config.get_warmup_lr, cfg5]

/-- C10: an empty plateau descriptor list takes the same constructor branch
as `plateau_steps = None` (Python truthiness), yielding the identical
single-cosine-segment table and the identical step-to-rate mapping. -/
theorem claim_c10_empty_plateaus (t w : ℤ) (b : List ℝ) (m : ℝ) (wt : String) :
    (Config.mk t w b m wt (some [])).segments = (Config.mk t w b m wt none).segments ∧
    ∀ s : ℤ, (Config.mk t w b m wt (some [])).get_lr s
      = (Config.mk t w b m wt none).get_lr s :=
  ⟨rfl, fun _ => rfl⟩

/-- Witness for C10 at the spec's concrete numbers and step 100. -/
theorem claim_c10_witness :
    (Config.mk 1000 100 [(0.1 : ℝ)] 0.1 "linear" (some [])).get_lr 100
      = (Config.mk 1000 100 [(0.1 : ℝ)] 0.1 "linear" none).get_lr 100 :=
  (claim_c10_empty_plateaus 1000 100 [(0.1 : ℝ)] 0.1 "linear").2 100

end CosinePlateau
